import Mathlib

/-!
Verification of the storage layer of the `simple_todo` application
(`src/simple_todo/storage.py` and `src/simple_todo/models.py`).

Strings are modelled as lists of characters (`List Char`), matching Python
strings as sequences of code points.  Python's `str.lower` is modelled as
ASCII lowering (the only case folding exercised by the development), and
Python's `int()` digit parsing is modelled over ASCII digits.
-/

namespace SimpleTodo

/-- Code points that Python's `str.isspace` (and hence `str.strip`) treats as
whitespace. -/
def pySpaceCodes : List Nat :=
  [9, 10, 11, 12, 13, 28, 29, 30, 31, 32,
   0x85, 0xA0, 0x1680,
   0x2000, 0x2001, 0x2002, 0x2003, 0x2004, 0x2005, 0x2006, 0x2007,
   0x2008, 0x2009, 0x200A, 0x2028, 0x2029, 0x202F, 0x205F, 0x3000]

/-- Python's per-character whitespace test. -/
def pyIsSpace (c : Char) : Bool :=
  pySpaceCodes.contains c.toNat

/-- Removal of trailing whitespace, as the tail half of Python's `str.strip`. -/
def stripTrail (l : List Char) : List Char :=
  (l.reverse.dropWhile pyIsSpace).reverse

/-- Python's `str.strip()`: drop leading and trailing whitespace. -/
def pyStrip (l : List Char) : List Char :=
  stripTrail (l.dropWhile pyIsSpace)

/-- Python's `re.sub(r' +', ' ', s)`: collapse runs of the space character
(code point 32) to a single space.  A space is dropped exactly when it is
immediately followed by another space, which keeps one space per run. -/
def collapseSpaces : List Char → List Char
  | [] => []
  | [c] => [c]
  | a :: b :: rest =>
    if a = ' ' ∧ b = ' ' then collapseSpaces (b :: rest)
    else a :: collapseSpaces (b :: rest)

/-- `MAX_LIST_NAME_LENGTH` from `storage.py`. -/
def MAX_LIST_NAME_LENGTH : Nat := 32

/-- `MAX_TASK_TITLE_LENGTH` from `storage.py`. -/
def MAX_TASK_TITLE_LENGTH : Nat := 256

/-- `sanitize_input` from `storage.py`: keep only characters with code point
at least 32 plus the horizontal tab, strip, collapse space runs, and if the
result exceeds `maxLength` characters truncate to `maxLength` and strip
again. -/
def sanitize_input (text : List Char) (maxLength : Nat) : List Char :=
  if text = [] then []
  else
    let kept := text.filter (fun c => 32 ≤ c.toNat || c = '\t')
    let stripped := pyStrip kept
    let collapsed := collapseSpaces stripped
    if maxLength < collapsed.length then pyStrip (collapsed.take maxLength)
    else collapsed

/-- Boolean test that a character list has no two consecutive space
characters. -/
def noDoubleSpace : List Char → Bool
  | a :: b :: rest => !(a = ' ' && b = ' ') && noDoubleSpace (b :: rest)
  | _ => true

/-! Auxiliary lemmas about stripping. -/

theorem dropWhile_headAll (p : Char → Bool) (l : List Char) :
    (l.dropWhile p).head?.all (fun c => !p c) = true := by
  induction l with
  | nil => rfl
  | cons a tl ih =>
    rw [List.dropWhile_cons]
    cases h : p a with
    | true => simpa [h] using ih
    | false => simp [h, Option.all]

theorem stripTrail_isPrefix (l : List Char) : stripTrail l <+: l := by
  unfold stripTrail
  obtain ⟨t, ht⟩ : l.reverse.dropWhile pyIsSpace <:+ l.reverse :=
    ⟨l.reverse.takeWhile pyIsSpace, List.takeWhile_append_dropWhile pyIsSpace l.reverse⟩
  refine ⟨t.reverse, ?_⟩
  have : l.reverse.reverse = (t ++ l.reverse.dropWhile pyIsSpace).reverse := by
    rw [ht]
  simpa [List.reverse_append] using this.symm

theorem headAll_of_isPrefix (q : Char → Bool) {l₁ l₂ : List Char}
    (hp : l₁ <+: l₂) (h : l₂.head?.all q = true) : l₁.head?.all q = true := by
  obtain ⟨t, ht⟩ := hp
  cases l₁ with
  | nil => rfl
  | cons a s =>
    subst ht
    simpa using h

theorem stripTrail_lastAll (l : List Char) :
    (stripTrail l).getLast?.all (fun c => !pyIsSpace c) = true := by
  unfold stripTrail
  rw [List.getLast?_reverse]
  exact dropWhile_headAll pyIsSpace l.reverse

theorem pyStrip_headAll (l : List Char) :
    (pyStrip l).head?.all (fun c => !pyIsSpace c) = true :=
  headAll_of_isPrefix _ (stripTrail_isPrefix _) (dropWhile_headAll pyIsSpace l)

theorem pyStrip_lastAll (l : List Char) :
    (pyStrip l).getLast?.all (fun c => !pyIsSpace c) = true :=
  stripTrail_lastAll _

theorem length_stripTrail_le (l : List Char) : (stripTrail l).length ≤ l.length :=
  (stripTrail_isPrefix l).length_le

theorem length_dropWhile_le' (p : Char → Bool) (l : List Char) :
    (l.dropWhile p).length ≤ l.length := by
  conv_rhs => rw [← List.takeWhile_append_dropWhile p l]
  rw [List.length_append]
  omega

theorem length_pyStrip_le (l : List Char) : (pyStrip l).length ≤ l.length :=
  le_trans (length_stripTrail_le _) (length_dropWhile_le' _ _)

/-! Auxiliary lemmas about space collapsing. -/

theorem collapse_head (l : List Char) : (collapseSpaces l).head? = l.head? := by
  induction l with
  | nil => rfl
  | cons a tl ih =>
    cases tl with
    | nil => rfl
    | cons b r =>
      rw [collapseSpaces]
      split
      · rename_i h
        rw [ih]
        simp [h.1, h.2]
      · rfl

theorem collapse_ne_nil {l : List Char} (h : l ≠ []) : collapseSpaces l ≠ [] := by
  intro hc
  have hh := collapse_head l
  rw [hc] at hh
  cases l with
  | nil => exact h rfl
  | cons a tl => simp at hh

theorem collapse_last (l : List Char) : (collapseSpaces l).getLast? = l.getLast? := by
  induction l with
  | nil => rfl
  | cons a tl ih =>
    cases tl with
    | nil => rfl
    | cons b r =>
      rw [collapseSpaces]
      split
      · rw [ih, List.getLast?_cons_cons]
      · obtain ⟨c, cs, hcs⟩ :=
          List.exists_cons_of_ne_nil (collapse_ne_nil (l := b :: r) (by simp))
        rw [hcs, List.getLast?_cons_cons, ← hcs, ih, List.getLast?_cons_cons]

theorem collapse_noDouble (l : List Char) : noDoubleSpace (collapseSpaces l) = true := by
  induction l with
  | nil => rfl
  | cons a tl ih =>
    cases tl with
    | nil => rfl
    | cons b r =>
      rw [collapseSpaces]
      split
      · exact ih
      · rename_i h
        obtain ⟨c, cs, hcs⟩ :=
          List.exists_cons_of_ne_nil (collapse_ne_nil (l := b :: r) (by simp))
        have hcb : c = b := by
          have := collapse_head (b :: r)
          rw [hcs] at this
          simpa using this
        rw [hcs, noDoubleSpace, ← hcs, ih, Bool.and_true]
        subst hcb
        simp only [Bool.not_eq_true']
        by_cases ha : a = ' ' <;> by_cases hb : c = ' ' <;>
          simp [ha, hb] at h ⊢

theorem collapse_all (q : Char → Bool) (l : List Char) (h : l.all q = true) :
    (collapseSpaces l).all q = true := by
  induction l with
  | nil => rfl
  | cons a tl ih =>
    cases tl with
    | nil => exact h
    | cons b r =>
      rw [collapseSpaces]
      simp only [List.all_cons, Bool.and_eq_true] at h
      split
      · exact ih (by simp [h.2.1, h.2.2])
      · simpa [h.1] using ih (by simp [h.2.1, h.2.2])

/-! `noDoubleSpace` is preserved by taking sublists at either end. -/

theorem noDouble_tail {a : Char} {l : List Char}
    (h : noDoubleSpace (a :: l) = true) : noDoubleSpace l = true := by
  cases l with
  | nil => rfl
  | cons b r =>
    rw [noDoubleSpace, Bool.and_eq_true] at h
    exact h.2

theorem noDouble_append_left : ∀ xs ys : List Char,
    noDoubleSpace (xs ++ ys) = true → noDoubleSpace xs = true
  | [], _, _ => rfl
  | [_], _, _ => rfl
  | x₁ :: x₂ :: rest, ys, h => by
    rw [List.cons_append, List.cons_append, noDoubleSpace, Bool.and_eq_true] at h
    rw [noDoubleSpace, Bool.and_eq_true]
    exact ⟨h.1, noDouble_append_left (x₂ :: rest) ys h.2⟩

theorem noDouble_append_right : ∀ xs ys : List Char,
    noDoubleSpace (xs ++ ys) = true → noDoubleSpace ys = true
  | [], _, h => h
  | x :: xs, ys, h => by
    rw [List.cons_append] at h
    exact noDouble_append_right xs ys (noDouble_tail h)

theorem noDouble_take (n : Nat) (l : List Char)
    (h : noDoubleSpace l = true) : noDoubleSpace (l.take n) = true :=
  noDouble_append_left _ _ (by rw [List.take_append_drop]; exact h)

theorem noDouble_dropWhile (p : Char → Bool) (l : List Char)
    (h : noDoubleSpace l = true) : noDoubleSpace (l.dropWhile p) = true :=
  noDouble_append_right _ _ (by rw [List.takeWhile_append_dropWhile]; exact h)

theorem noDouble_stripTrail (l : List Char)
    (h : noDoubleSpace l = true) : noDoubleSpace (stripTrail l) = true := by
  obtain ⟨t, ht⟩ := stripTrail_isPrefix l
  exact noDouble_append_left _ t (by rw [ht]; exact h)

theorem noDouble_pyStrip (l : List Char)
    (h : noDoubleSpace l = true) : noDoubleSpace (pyStrip l) = true :=
  noDouble_stripTrail _ (noDouble_dropWhile _ _ h)

/-! `List.all` is preserved by the same operations. -/

theorem all_dropWhile (q p : Char → Bool) (l : List Char) (h : l.all q = true) :
    (l.dropWhile p).all q = true := by
  have := List.takeWhile_append_dropWhile (p := p) (l := l)
  rw [← this, List.all_append, Bool.and_eq_true] at h
  exact h.2

theorem all_take (q : Char → Bool) (n : Nat) (l : List Char) (h : l.all q = true) :
    (l.take n).all q = true := by
  rw [← List.take_append_drop n l, List.all_append, Bool.and_eq_true] at h
  exact h.1

theorem all_reverse (q : Char → Bool) (l : List Char) (h : l.all q = true) :
    l.reverse.all q = true := by
  simpa using h

theorem all_stripTrail (q : Char → Bool) (l : List Char) (h : l.all q = true) :
    (stripTrail l).all q = true :=
  all_reverse q _ (all_dropWhile q _ _ (all_reverse q l h))

theorem all_pyStrip (q : Char → Bool) (l : List Char) (h : l.all q = true) :
    (pyStrip l).all q = true :=
  all_stripTrail q _ (all_dropWhile q _ _ h)

theorem sanitize_post (l : List Char) (N : Nat)
    (hall : l.all (fun c => 32 ≤ c.toNat || c = '\t') = true) :
    (if N < (collapseSpaces (pyStrip l)).length
       then pyStrip ((collapseSpaces (pyStrip l)).take N)
       else collapseSpaces (pyStrip l)).length ≤ N
    ∧ (if N < (collapseSpaces (pyStrip l)).length
        then pyStrip ((collapseSpaces (pyStrip l)).take N)
        else collapseSpaces (pyStrip l)).head?.all (fun c => !pyIsSpace c) = true
    ∧ (if N < (collapseSpaces (pyStrip l)).length
        then pyStrip ((collapseSpaces (pyStrip l)).take N)
        else collapseSpaces (pyStrip l)).getLast?.all (fun c => !pyIsSpace c) = true
    ∧ noDoubleSpace (if N < (collapseSpaces (pyStrip l)).length
        then pyStrip ((collapseSpaces (pyStrip l)).take N)
        else collapseSpaces (pyStrip l)) = true
    ∧ (if N < (collapseSpaces (pyStrip l)).length
        then pyStrip ((collapseSpaces (pyStrip l)).take N)
        else collapseSpaces (pyStrip l)).all (fun c => 32 ≤ c.toNat || c = '\t') = true := by
  have hcall : (collapseSpaces (pyStrip l)).all (fun c => 32 ≤ c.toNat || c = '\t') = true :=
    collapse_all _ _ (all_pyStrip _ _ hall)
  have hcnd : noDoubleSpace (collapseSpaces (pyStrip l)) = true := collapse_noDouble _
  split
  · rename_i hlen
    refine ⟨?_, pyStrip_headAll _, pyStrip_lastAll _, ?_, ?_⟩
    · exact le_trans (length_pyStrip_le _)
        (List.length_take_le N (collapseSpaces (pyStrip l)))
    · exact noDouble_pyStrip _ (noDouble_take _ _ hcnd)
    · exact all_pyStrip _ _ (all_take _ _ _ hcall)
  · rename_i hlen
    refine ⟨by omega, ?_, ?_, hcnd, hcall⟩
    · rw [collapse_head]
      exact pyStrip_headAll _
    · rw [collapse_last]
      exact pyStrip_lastAll _

/-- C2: for every input string and length bound, the output of
`sanitize_input` has length at most the bound, no leading or trailing
whitespace, no two consecutive space characters, and no character with code
point below 32 other than horizontal tab. -/
theorem sanitize_input_spec (text : List Char) (N : Nat) :
    (sanitize_input text N).length ≤ N
    ∧ (sanitize_input text N).head?.all (fun c => !pyIsSpace c) = true
    ∧ (sanitize_input text N).getLast?.all (fun c => !pyIsSpace c) = true
    ∧ noDoubleSpace (sanitize_input text N) = true
    ∧ (sanitize_input text N).all (fun c => 32 ≤ c.toNat || c = '\t') = true := by
  by_cases htext : text = []
  · subst htext
    exact ⟨Nat.zero_le N, rfl, rfl, rfl, rfl⟩
  · have hall : (text.filter (fun c => 32 ≤ c.toNat || c = '\t')).all
        (fun c => 32 ≤ c.toNat || c = '\t') = true := by
      rw [List.all_eq_true]
      intro c hc
      exact (List.mem_filter.mp hc).2
    have heq : sanitize_input text N
        = (if N < (collapseSpaces (pyStrip (text.filter (fun c => 32 ≤ c.toNat || c = '\t')))).length
            then pyStrip ((collapseSpaces (pyStrip (text.filter (fun c => 32 ≤ c.toNat || c = '\t')))).take N)
            else collapseSpaces (pyStrip (text.filter (fun c => 32 ≤ c.toNat || c = '\t')))) := by
      simp only [sanitize_input, htext, if_false]
    rw [heq]
    exact sanitize_post _ N hall

/-! ## Data model (`models.py`) -/

/-- `Task` from `models.py`: id, title, completion flag, creation timestamp.
The generated `id`/`created_at` values are supplied by callers as explicit
parameters of the operations that create tasks. -/
structure Task where
  id : List Char
  title : List Char
  completed : Bool
  created_at : List Char
deriving DecidableEq

/-- `TodoList` from `models.py`: id, name, ordered task sequence. -/
structure TodoList where
  id : List Char
  name : List Char
  tasks : List Task
deriving DecidableEq

/-! ## Serialization (`Task.to_dict`/`from_dict`, `TodoList.to_dict`/`from_dict`)

The JSON dictionaries are modelled as records of optional fields: `to_dict`
emits every key, `from_dict` reads keys with `dict.get` defaults.  The fresh
id and current timestamp used for defaulting are explicit parameters. -/

structure TaskDict where
  id : Option (List Char)
  title : Option (List Char)
  completed : Option Bool
  created_at : Option (List Char)
deriving DecidableEq

structure ListDict where
  id : Option (List Char)
  name : Option (List Char)
  tasks : Option (List TaskDict)
deriving DecidableEq

/-- The persisted top-level object `{"lists": [...]}`. -/
structure DataDict where
  lists : Option (List ListDict)
deriving DecidableEq

def Task.to_dict (t : Task) : TaskDict :=
  ⟨some t.id, some t.title, some t.completed, some t.created_at⟩

def Task.from_dict (freshId now : List Char) (d : TaskDict) : Task :=
  ⟨d.id.getD freshId, d.title.getD [], d.completed.getD false, d.created_at.getD now⟩

def TodoList.to_dict (l : TodoList) : ListDict :=
  ⟨some l.id, some l.name, some (l.tasks.map Task.to_dict)⟩

def TodoList.from_dict (freshId now : List Char) (d : ListDict) : TodoList :=
  ⟨d.id.getD freshId, d.name.getD [],
   (d.tasks.getD []).map (Task.from_dict freshId now)⟩

/-- The serialization performed by `Storage._save` (at the dictionary level;
the JSON text encoding itself is assumed faithful). -/
def saveData (lists : List TodoList) : DataDict :=
  ⟨some (lists.map TodoList.to_dict)⟩

/-- The deserialization performed by `Storage._load` on a parseable file. -/
def loadData (freshId now : List Char) (d : DataDict) : List TodoList :=
  (d.lists.getD []).map (TodoList.from_dict freshId now)

/-! ## Name handling (`storage.py`) -/

/-- ASCII model of Python's `str.lower` applied to one character. -/
def lowerChar (c : Char) : Char :=
  if 'A' ≤ c ∧ c ≤ 'Z' then Char.ofNat (c.toNat + 32) else c

/-- ASCII model of Python's `str.lower`. -/
def lowerStr (l : List Char) : List Char :=
  l.map lowerChar

/-- Value accumulation for Python's `int()` digit grammar: digits optionally
separated by single underscores, given that the first digit has been
consumed. -/
def pyDigitsCore (acc : Nat) : List Char → Option Nat
  | [] => some acc
  | '_' :: c :: rest =>
    if c.isDigit then pyDigitsCore (acc * 10 + (c.toNat - 48)) rest else none
  | c :: rest =>
    if c.isDigit then pyDigitsCore (acc * 10 + (c.toNat - 48)) rest else none

/-- Python's `int()` digit-sequence grammar (nonempty, underscores only
between digits), returning the value. -/
def pyDigits : List Char → Option Nat
  | [] => none
  | c :: rest => if c.isDigit then pyDigitsCore (c.toNat - 48) rest else none

/-- Python's `int(s)` on a string: surrounding whitespace stripped, optional
sign, then the digit grammar (ASCII digits); `none` models `ValueError`. -/
def pyInt (l : List Char) : Option Int :=
  match pyStrip l with
  | '+' :: rest => (pyDigits rest).map (fun n => (n : Int))
  | '-' :: rest => (pyDigits rest).map (fun n => -(n : Int))
  | s => (pyDigits s).map (fun n => (n : Int))

/-- Loop body of `Storage._get_next_list_number`: fold over the lists,
keeping the maximum parsed `"List N"` suffix (starting from 0, so negative
suffixes never contribute). -/
def listNumAux (acc : Int) : List TodoList → Int
  | [] => acc
  | l :: ls =>
    if l.name.take 5 = "List ".data then
      match pyInt (l.name.drop 5) with
      | some n => listNumAux (max acc n) ls
      | none => listNumAux acc ls
    else listNumAux acc ls

/-- `Storage._get_next_list_number`. -/
def get_next_list_number (lists : List TodoList) : Int :=
  listNumAux 0 lists + 1

/-- The `while f"list {num}".lower() in existing_names: num += 1` loop of
`Storage._generate_unique_name`.  The fuel `lists.length + 1` always
suffices: each iteration requires the candidate (all candidates are
distinct) to be one of the at most `lists.length` existing names. -/
def probeListNum (ex : List (List Char)) : Nat → Int → Int
  | 0, num => num
  | fuel + 1, num =>
    if ex.contains ("list ".data ++ (Int.repr num).data) then
      probeListNum ex fuel (num + 1)
    else num

/-- `Storage._generate_unique_name`. -/
def generate_unique_name (lists : List TodoList) : List Char :=
  "List ".data
    ++ (Int.repr (probeListNum (lists.map (fun l => lowerStr l.name))
          (lists.length + 1) (get_next_list_number lists))).data

/-- Python's `s[:k]` for an `Int` bound `k` (negative bounds count from the
end), as used by the truncation `base_name[:MAX_LIST_NAME_LENGTH - len(suffix)]`. -/
def pySliceTo (l : List Char) (k : Int) : List Char :=
  if 0 ≤ k then l.take k.toNat else l.take (l.length - (-k).toNat)

/-- The `while f"{base_name} ({counter})".lower() in existing_names` loop of
`Storage.create_list`; fuel as in `probeListNum`. -/
def probeSuffix (ex : List (List Char)) (base : List Char) : Nat → Nat → Nat
  | 0, counter => counter
  | fuel + 1, counter =>
    if ex.contains (lowerStr (base ++ " (".data ++ (Nat.repr counter).data ++ ")".data)) then
      probeSuffix ex base fuel (counter + 1)
    else counter

/-! ## Store operations (`storage.py`)

The store state is the in-memory list of `TodoList`s.  Each mutating
operation returns the new state together with its return value and a flag
recording whether `_save` was invoked. -/

structure CreateResult where
  lists : List TodoList
  created : TodoList
deriving DecidableEq

structure OpResult where
  lists : List TodoList
  ret : Bool
  saved : Bool
deriving DecidableEq

structure AddResult where
  lists : List TodoList
  ret : Option Task
  saved : Bool
deriving DecidableEq

/-- `Storage.create_list`.  `nameArg = none` models the `name=None` default;
`freshId` is the generated uuid of the new list.  `create_list` always
saves. -/
def create_list (lists : List TodoList) (nameArg : Option (List Char))
    (freshId : List Char) : CreateResult :=
  let name :=
    match nameArg with
    | none => generate_unique_name lists
    | some nm =>
      if nm = [] ∨ pyStrip nm = [] then generate_unique_name lists
      else
        let n := sanitize_input nm MAX_LIST_NAME_LENGTH
        let ex := lists.map (fun l => lowerStr l.name)
        if ex.contains (lowerStr n) then
          let counter := probeSuffix ex n (lists.length + 1) 2
          let cand := n ++ " (".data ++ (Nat.repr counter).data ++ ")".data
          if MAX_LIST_NAME_LENGTH < cand.length then
            pySliceTo n ((MAX_LIST_NAME_LENGTH : Int)
              - (" (".data ++ (Nat.repr counter).data ++ ")".data).length)
              ++ (" (".data ++ (Nat.repr counter).data ++ ")".data)
          else cand
        else n
  let newList : TodoList := ⟨freshId, name, []⟩
  ⟨lists ++ [newList], newList⟩

/-- Replacement of the first element satisfying `p` by its image under `f`;
this models the Python pattern of looking an object up by id and mutating it
in place. -/
def updateFirst (p : α → Bool) (f : α → α) : List α → List α
  | [] => []
  | x :: xs => if p x then f x :: xs else x :: updateFirst p f xs

/-- `Storage.rename_list`. -/
def rename_list (lists : List TodoList) (lid newName : List Char) : OpResult :=
  match lists.find? (fun l => l.id = lid) with
  | none => ⟨lists, false, false⟩
  | some _ =>
    let n := sanitize_input newName MAX_LIST_NAME_LENGTH
    if n = [] then ⟨lists, false, false⟩
    else if lists.any (fun l => l.id ≠ lid ∧ lowerStr l.name = lowerStr n) then
      ⟨lists, false, false⟩
    else
      ⟨updateFirst (fun l => l.id = lid) (fun l => { l with name := n }) lists,
       true, true⟩

/-- `Storage.add_task` (together with `TodoList.add_task` from `models.py`);
`freshId`/`now` are the generated uuid and timestamp of the new task. -/
def add_task (lists : List TodoList) (lid title freshId now : List Char) : AddResult :=
  match lists.find? (fun l => l.id = lid) with
  | none => ⟨lists, none, false⟩
  | some _ =>
    let t := sanitize_input title MAX_TASK_TITLE_LENGTH
    if t = [] then ⟨lists, none, false⟩
    else
      ⟨updateFirst (fun l => l.id = lid)
         (fun l => { l with tasks := l.tasks ++ [⟨freshId, t, false, now⟩] }) lists,
       some ⟨freshId, t, false, now⟩, true⟩

/-- The in-place mutation `task.completed = not task.completed`. -/
def toggleCompleted (t : Task) : Task :=
  { t with completed := !t.completed }

/-- The effect of `toggle_task` on the list found by `get_list`: flip the
completion flag of the first task with the given id. -/
def toggleTasksOf (tid : List Char) (l : TodoList) : TodoList :=
  { l with tasks := (updateFirst (fun t => t.id = tid) toggleCompleted l.tasks) }

/-- `Storage.toggle_task` (with `TodoList.get_task` from `models.py`). -/
def toggle_task (lists : List TodoList) (lid tid : List Char) : OpResult :=
  match lists.find? (fun l => l.id = lid) with
  | none => ⟨lists, false, false⟩
  | some lst =>
    match lst.tasks.find? (fun t => t.id = tid) with
    | none => ⟨lists, false, false⟩
    | some _ =>
      ⟨updateFirst (fun l => l.id = lid) (toggleTasksOf tid) lists, true, true⟩

/-- The read path `Storage.get_list` followed by `TodoList.get_task`. -/
def findTaskIn (lists : List TodoList) (lid tid : List Char) : Option Task :=
  (lists.find? (fun l => l.id = lid)).bind (fun l => l.tasks.find? (fun t => t.id = tid))

/-! ## Claim-side auto-naming formula (for comparison with the code)

The claim describes auto-naming as `1 + max` over lists whose name matches
exactly the pattern `"List <integer>"`. The definitions below follow that
wording: an integer written as an optional minus sign followed by digits,
with nothing else around it. -/

/-- Strict digit-string value: `some` iff the list is nonempty and all ASCII
digits. -/
def strictDigits : List Char → Option Nat
  | [] => none
  | c :: rest =>
    if c.isDigit then
      rest.foldl
        (fun acc? d => acc?.bind
          (fun acc => if d.isDigit then some (acc * 10 + (d.toNat - 48)) else none))
        (some (c.toNat - 48))
    else none

/-- Modelled from the claim wording: a string that is exactly an integer
(optional minus sign, then digits). -/
def strictInt : List Char → Option Int
  | '-' :: rest => (strictDigits rest).map (fun n => -(n : Int))
  | l => (strictDigits l).map (fun n => (n : Int))

/-- Modelled from the claim wording: the integer suffix of a name matching
exactly the pattern `"List <integer>"`. -/
def claimSuffixInt (name : List Char) : Option Int :=
  if name.take 5 = "List ".data then strictInt (name.drop 5) else none

/-- Modelled from the claim wording: `N` is 1 plus the maximum integer
suffix among matching names (no participants ⇒ base 0, per the
`"List 1"`-on-empty-store example). -/
def claimNextNumber (lists : List TodoList) : Int :=
  match lists.filterMap (fun l => claimSuffixInt l.name) with
  | [] => 1
  | v :: vs => vs.foldl max v + 1

/-- Modelled from the claim wording: the predicted auto-generated name,
probing upward from `claimNextNumber` past case-insensitive collisions. -/
def claimAutoName (lists : List TodoList) : List Char :=
  "List ".data
    ++ (Int.repr (probeListNum (lists.map (fun l => lowerStr l.name))
          (lists.length + 1) (claimNextNumber lists))).data

/-- The parse-based participation condition actually implemented by the
code: names starting with `"List "` whose remainder `int()` accepts. -/
def pySuffixInt (name : List Char) : Option Int :=
  if name.take 5 = "List ".data then pyInt (name.drop 5) else none

/-! ## Generic lemmas about `updateFirst` -/

theorem find?_updateFirst (p : α → Bool) (f : α → α) (l : List α)
    (hpf : ∀ x, p (f x) = p x) :
    (updateFirst p f l).find? p = (l.find? p).map f := by
  induction l with
  | nil => rfl
  | cons x xs ih =>
    rw [updateFirst]
    by_cases hx : p x = true
    · rw [if_pos hx, List.find?_cons_of_pos _ (by rw [hpf]; exact hx),
        List.find?_cons_of_pos _ hx]
      rfl
    · rw [if_neg hx, List.find?_cons_of_neg _ hx, List.find?_cons_of_neg _ hx]
      exact ih

theorem updateFirst_updateFirst (p : α → Bool) (f : α → α) (l : List α)
    (hpf : ∀ x, p (f x) = p x) (hff : ∀ x, f (f x) = x) :
    updateFirst p f (updateFirst p f l) = l := by
  induction l with
  | nil => rfl
  | cons x xs ih =>
    rw [updateFirst]
    by_cases hx : p x = true
    · rw [if_pos hx, updateFirst, if_pos (by rw [hpf]; exact hx), hff]
    · rw [if_neg hx, updateFirst, if_neg hx, ih]

theorem updateFirst_of_find? (p : α → Bool) (f : α → α) (l : List α) (x : α)
    (h : l.find? p = some x) :
    ∃ i, l[i]? = some x ∧ p x = true
      ∧ (∀ k, k < i → ∀ y, l[k]? = some y → p y = false)
      ∧ updateFirst p f l = l.set i (f x) := by
  induction l generalizing x with
  | nil => simp at h
  | cons a xs ih =>
    by_cases ha : p a = true
    · rw [List.find?_cons_of_pos _ ha, Option.some_inj] at h
      subst h
      refine ⟨0, by simp, ha, ?_, ?_⟩
      · intro k hk
        omega
      · rw [updateFirst, if_pos ha, List.set_cons_zero]
    · rw [List.find?_cons_of_neg _ ha] at h
      obtain ⟨i, hget, hpx, hmin, hupd⟩ := ih x h
      refine ⟨i + 1, by simpa using hget, hpx, ?_, ?_⟩
      · intro k hk y hy
        cases k with
        | zero =>
          rw [List.getElem?_cons_zero, Option.some_inj] at hy
          subst hy
          exact Bool.not_eq_true _ ▸ (by simpa using ha)
        | succ k' =>
          rw [List.getElem?_cons_succ] at hy
          exact hmin k' (by omega) y hy
      · rw [updateFirst, if_neg ha, hupd, List.set_cons_succ]

/-! ## Serialization round-trip (C5) -/

theorem task_from_to (freshId now : List Char) (t : Task) :
    Task.from_dict freshId now (Task.to_dict t) = t := rfl

theorem tasks_map_from_to (freshId now : List Char) (ts : List Task) :
    ts.map (fun t => Task.from_dict freshId now (Task.to_dict t)) = ts := by
  induction ts with
  | nil => rfl
  | cons t ts ih => rw [List.map_cons, task_from_to, ih]

theorem list_from_to (freshId now : List Char) (l : TodoList) :
    TodoList.from_dict freshId now (TodoList.to_dict l) = l := by
  cases l with
  | mk i n ts =>
    simp only [TodoList.from_dict, TodoList.to_dict, Option.getD_some, List.map_map]
    rw [show (Task.from_dict freshId now ∘ Task.to_dict)
          = (fun t => Task.from_dict freshId now (Task.to_dict t)) from rfl,
      tasks_map_from_to]

/-- C5: serializing the full collection to the persisted representation and
deserializing it back yields an equal collection (same list ids, names and
order, and same task fields in the same order), for any defaulting
parameters of the reader. -/
theorem save_load_roundtrip (lists : List TodoList) (freshId now : List Char) :
    loadData freshId now (saveData lists) = lists := by
  simp only [loadData, saveData, Option.getD_some, List.map_map]
  rw [show (TodoList.from_dict freshId now ∘ TodoList.to_dict)
        = (fun l => TodoList.from_dict freshId now (TodoList.to_dict l)) from rfl]
  induction lists with
  | nil => rfl
  | cons l ls ih => rw [List.map_cons, list_from_to, ih]

/-! ## Auto-naming (C3) -/

/-- C3 counterexample: on the (reachable) store holding the single list
named `"List -5"`, the claim formula predicts the auto-generated name
`"List -4"` (the name matches the pattern `"List <integer>"`, so N = 1 +
(-5) = -4, and `"List -4"` does not collide), while the code produces
`"List 1"` (its accumulator starts at 0, so negative suffixes are ignored).
-/
theorem auto_name_claim_counterexample :
    claimAutoName (create_list [] (some "List -5".data) "id1".data).lists
      = "List -4".data
    ∧ (create_list (create_list [] (some "List -5".data) "id1".data).lists
        none "id2".data).created.name = "List 1".data
    ∧ "List 1".data ≠ "List -4".data :=
  ⟨by decide, by decide, by decide⟩

theorem foldr_max_nonneg (vs : List Int) : 0 ≤ vs.foldr max 0 := by
  induction vs with
  | nil => exact le_rfl
  | cons v vs ih => exact le_trans ih (by rw [List.foldr_cons]; exact le_max_right _ _)

theorem listNumAux_eq (l : List TodoList) : ∀ acc : Int, 0 ≤ acc →
    listNumAux acc l
      = max acc ((l.filterMap (fun x => pySuffixInt x.name)).foldr max 0) := by
  induction l with
  | nil =>
    intro acc hacc
    rw [listNumAux, List.filterMap_nil, List.foldr_nil, max_eq_left hacc]
  | cons x xs ih =>
    intro acc hacc
    rw [listNumAux, List.filterMap_cons]
    by_cases hs : x.name.take 5 = "List ".data
    · rw [if_pos hs]
      have hps : pySuffixInt x.name = pyInt (x.name.drop 5) := by
        rw [pySuffixInt, if_pos hs]
      cases hv : pyInt (x.name.drop 5) with
      | some n =>
        rw [hps, hv, List.foldr_cons]
        dsimp only
        rw [ih (max acc n) (le_trans hacc (le_max_left _ _)), max_assoc]
      | none =>
        rw [hps, hv]
        dsimp only
        rw [ih acc hacc]
    · rw [if_neg hs]
      have hps : pySuffixInt x.name = none := by
        rw [pySuffixInt, if_neg hs]
      rw [hps, ih acc hacc]

/-- C3 amended: auto-naming uses `N = 1 + max(0, S)` where `S` ranges over
the suffixes of names that start with `"List "` and whose remainder is
accepted by Python's `int()` (surrounding whitespace, an optional sign and
underscore digit separators allowed, so more names participate than the
exact pattern `"List <integer>"`, and values below zero are ignored); N is
then incremented past case-insensitive collisions, and three no-name calls
on an empty store yield `"List 1"`, `"List 2"`, `"List 3"`. -/
theorem auto_name_amended :
    (∀ lists : List TodoList,
      get_next_list_number lists
        = 1 + (lists.filterMap (fun l => pySuffixInt l.name)).foldr max 0)
    ∧ (create_list [] none "a".data).created.name = "List 1".data
    ∧ (create_list (create_list [] none "a".data).lists
        none "b".data).created.name = "List 2".data
    ∧ (create_list (create_list (create_list [] none "a".data).lists
        none "b".data).lists none "c".data).created.name = "List 3".data := by
  refine ⟨?_, by decide, by decide, by decide⟩
  intro lists
  rw [get_next_list_number, listNumAux_eq lists 0 le_rfl,
    max_eq_right (foldr_max_nonneg _)]
  omega

/-! ## Duplicate-name example (C4) -/

/-- C4 counterexample: after `create_list("Work")`, the call
`create_list("work")` returns a list named `"work (2)"`, not `"Work (2)"`:
the code appends the suffix to the sanitized input of the second call, so
the result keeps the caller's casing. -/
theorem work_collision_counterexample :
    (create_list (create_list [] (some "Work".data) "idA".data).lists
      (some "work".data) "idB".data).created.name ≠ "Work (2)".data := by
  decide

/-- C4 amended: on an empty store, `create_list("Work")` then
`create_list("work")` results in the second call returning a list named
`"work (2)"` (the suffix is appended to the second call's sanitized input).
-/
theorem work_collision_amended :
    (create_list (create_list [] (some "Work".data) "idA".data).lists
      (some "work".data) "idB".data).created.name = "work (2)".data := by
  decide

/-! ## Uniqueness invariant (C1) -/

/-- C1 fails on the code: `create_list` does not re-check uniqueness after
truncating a suffixed candidate to 32 characters, so a sequence of three
`create_list` calls starting from the empty store produces two lists whose
names are equal (hence case-insensitively equal).  Create a list named with
32 `A`s, one named with 28 `A`s followed by `" (2)"`, then again request 32
`A`s: the candidate `"A"*32 ++ " (2)"` is collision-free but 36 characters
long, and its truncation `"A"*28 ++ " (2)"` collides with the second list.
-/
theorem create_list_truncation_breaks_uniqueness :
    ¬ ((create_list (create_list (create_list []
          (some (List.replicate 32 'A')) "i1".data).lists
          (some (List.replicate 28 'A' ++ " (2)".data)) "i2".data).lists
          (some (List.replicate 32 'A')) "i3".data).lists.map
            (fun l => lowerStr l.name)).Nodup := by
  decide

/-! ## Name-length invariant (C6) -/

/-- C6 fails on the code: `create_list` does not reject a provided name
that sanitizes to the empty string (unlike `rename_list`), so a single call
on the empty store creates a list whose name has length 0, violating the
1..32 bound. -/
theorem create_list_empty_name :
    ((create_list [] (some ['\x01']) "i1".data).lists.map
      (fun l => l.name.length)) = [0] := by
  decide

/-! ## Rename behaviour (C7) -/

/-- C7: `rename_list` fails and changes nothing (and does not save) when
the list id is not present, when the new name sanitizes to empty, or when
the sanitized name collides case-insensitively with a different list's
name; otherwise it sets the first list with that id to the sanitized name,
saves, and returns success. -/
theorem rename_list_spec (lists : List TodoList) (lid newName : List Char) :
    (((∀ l ∈ lists, l.id ≠ lid)
        ∨ sanitize_input newName MAX_LIST_NAME_LENGTH = []
        ∨ (∃ l ∈ lists, l.id ≠ lid
            ∧ lowerStr l.name = lowerStr (sanitize_input newName MAX_LIST_NAME_LENGTH))) →
      rename_list lists lid newName = ⟨lists, false, false⟩)
    ∧ ((∃ l ∈ lists, l.id = lid)
        → sanitize_input newName MAX_LIST_NAME_LENGTH ≠ []
        → (∀ l ∈ lists, l.id = lid
            ∨ lowerStr l.name ≠ lowerStr (sanitize_input newName MAX_LIST_NAME_LENGTH))
        → (rename_list lists lid newName).ret = true
          ∧ (rename_list lists lid newName).saved = true
          ∧ ∃ i lst, lists[i]? = some lst ∧ lst.id = lid
              ∧ (∀ k, k < i → ∀ y, lists[k]? = some y → y.id ≠ lid)
              ∧ (rename_list lists lid newName).lists
                  = lists.set i
                      { lst with name := sanitize_input newName MAX_LIST_NAME_LENGTH }) := by
  constructor
  · intro hfail
    cases hf : lists.find? (fun l => l.id = lid) with
    | none => simp only [rename_list, hf]
    | some lst =>
      have hlst : lst.id = lid := by simpa using List.find?_some hf
      have hmem : lst ∈ lists := List.mem_of_find?_eq_some hf
      rcases hfail with hnone | hempty | hcol
      · exact absurd hlst (hnone lst hmem)
      · simp only [rename_list, hf]
        rw [if_pos hempty]
      · simp only [rename_list, hf]
        by_cases hempty : sanitize_input newName MAX_LIST_NAME_LENGTH = []
        · rw [if_pos hempty]
        · rw [if_neg hempty]
          have hany : (lists.any (fun l => l.id ≠ lid ∧ lowerStr l.name
              = lowerStr (sanitize_input newName MAX_LIST_NAME_LENGTH))) = true := by
            rw [List.any_eq_true]
            obtain ⟨l, hl, hne, hlow⟩ := hcol
            exact ⟨l, hl, by simp [hne, hlow]⟩
          rw [if_pos hany]
  · intro hex hne hnocol
    obtain ⟨lst, hf⟩ : ∃ lst, lists.find? (fun l => l.id = lid) = some lst := by
      have hsome : (lists.find? (fun l => l.id = lid)).isSome := by
        rw [List.find?_isSome]
        obtain ⟨l, hl, hid⟩ := hex
        exact ⟨l, hl, by simp [hid]⟩
      exact Option.isSome_iff_exists.mp hsome
    have hany : (lists.any (fun l => l.id ≠ lid ∧ lowerStr l.name
        = lowerStr (sanitize_input newName MAX_LIST_NAME_LENGTH))) = false := by
      rw [List.any_eq_false]
      intro l hl hcontra
      rw [decide_eq_true_iff] at hcontra
      rcases hnocol l hl with hid | hlow
      · exact hcontra.1 hid
      · exact hlow hcontra.2
    simp only [rename_list, hf]
    rw [if_neg hne, if_neg (by rw [hany]; exact Bool.false_ne_true)]
    refine ⟨rfl, rfl, ?_⟩
    obtain ⟨i, hget, hpl, hmin, hupd⟩ :=
      updateFirst_of_find? (fun l => l.id = lid)
        (fun l => { l with name := sanitize_input newName MAX_LIST_NAME_LENGTH })
        lists lst hf
    exact ⟨i, lst, hget, by simpa using hpl,
      fun k hk y hy => by simpa using hmin k hk y hy, hupd⟩

/-- Shared concrete task for the witnesses below. -/
def sampleTask : Task := ⟨"t1".data, "Milk".data, false, "2024-01-01".data⟩

/-- Shared concrete list for the witnesses below. -/
def sampleList : TodoList := ⟨"1".data, "Alpha".data, [sampleTask]⟩

theorem rename_list_spec_witness :
    (rename_list [sampleList] "1".data "Beta".data).ret = true :=
  ((rename_list_spec [sampleList] "1".data "Beta".data).2
    (by decide) (by decide) (by decide)).1

/-! ## Task creation behaviour (C8) -/

/-- C8: `add_task` returns `none` and changes nothing (nothing persisted)
when the list id is absent or the title sanitizes to empty; otherwise it
appends a fresh task with the sanitized title, `completed = false` and the
freshly generated id/timestamp to the first list with that id, saves, and
returns the task. -/
theorem add_task_spec (lists : List TodoList) (lid title freshId now : List Char) :
    (((∀ l ∈ lists, l.id ≠ lid) ∨ sanitize_input title MAX_TASK_TITLE_LENGTH = []) →
      add_task lists lid title freshId now = ⟨lists, none, false⟩)
    ∧ ((∃ l ∈ lists, l.id = lid)
        → sanitize_input title MAX_TASK_TITLE_LENGTH ≠ []
        → (add_task lists lid title freshId now).ret
              = some ⟨freshId, sanitize_input title MAX_TASK_TITLE_LENGTH, false, now⟩
          ∧ (add_task lists lid title freshId now).saved = true
          ∧ ∃ i lst, lists[i]? = some lst ∧ lst.id = lid
              ∧ (∀ k, k < i → ∀ y, lists[k]? = some y → y.id ≠ lid)
              ∧ (add_task lists lid title freshId now).lists
                  = lists.set i { lst with tasks := lst.tasks
                      ++ [⟨freshId, sanitize_input title MAX_TASK_TITLE_LENGTH, false, now⟩] }) := by
  constructor
  · intro hfail
    cases hf : lists.find? (fun l => l.id = lid) with
    | none => simp only [add_task, hf]
    | some lst =>
      have hlst : lst.id = lid := by simpa using List.find?_some hf
      have hmem : lst ∈ lists := List.mem_of_find?_eq_some hf
      rcases hfail with hnone | hempty
      · exact absurd hlst (hnone lst hmem)
      · simp only [add_task, hf]
        rw [if_pos hempty]
  · intro hex hne
    obtain ⟨lst, hf⟩ : ∃ lst, lists.find? (fun l => l.id = lid) = some lst := by
      have hsome : (lists.find? (fun l => l.id = lid)).isSome := by
        rw [List.find?_isSome]
        obtain ⟨l, hl, hid⟩ := hex
        exact ⟨l, hl, by simp [hid]⟩
      exact Option.isSome_iff_exists.mp hsome
    simp only [add_task, hf]
    rw [if_neg hne]
    refine ⟨rfl, rfl, ?_⟩
    obtain ⟨i, hget, hpl, hmin, hupd⟩ :=
      updateFirst_of_find? (fun l => l.id = lid)
        (fun l => { l with tasks := l.tasks
            ++ [⟨freshId, sanitize_input title MAX_TASK_TITLE_LENGTH, false, now⟩] })
        lists lst hf
    exact ⟨i, lst, hget, by simpa using hpl,
      fun k hk y hy => by simpa using hmin k hk y hy, hupd⟩

theorem add_task_spec_witness :
    (add_task [sampleList] "1".data "Bread".data "t2".data "2024-01-02".data).saved
      = true :=
  ((add_task_spec [sampleList] "1".data "Bread".data "t2".data "2024-01-02".data).2
    (by decide) (by decide)).2.1

/-! ## Toggle (C9, C10) -/

theorem toggleCompleted_toggleCompleted (t : Task) :
    toggleCompleted (toggleCompleted t) = t := by
  cases t with
  | mk i ti c ca => simp [toggleCompleted]

theorem toggleTasksOf_toggleTasksOf (tid : List Char) (l : TodoList) :
    toggleTasksOf tid (toggleTasksOf tid l) = l := by
  cases l with
  | mk i n ts =>
    simp only [toggleTasksOf]
    rw [updateFirst_updateFirst (fun t : Task => t.id = tid) toggleCompleted ts
      (fun y => rfl) toggleCompleted_toggleCompleted]

/-- C9: if the store contains (along the first-match read path) a list with
id `lid` holding a task with id `tid`, toggling that task twice returns its
`completed` flag to its original value. -/
theorem toggle_task_twice (lists : List TodoList) (lid tid : List Char) (t : Task)
    (h : findTaskIn lists lid tid = some t) :
    (findTaskIn ((toggle_task ((toggle_task lists lid tid).lists) lid tid).lists)
        lid tid).map Task.completed = some t.completed := by
  rw [findTaskIn] at h
  cases hf1 : lists.find? (fun l => l.id = lid) with
  | none => rw [hf1] at h; simp at h
  | some lst =>
    rw [hf1] at h
    have h2 : lst.tasks.find? (fun x => x.id = tid) = some t := h
    have ht1 : (toggle_task lists lid tid).lists
        = updateFirst (fun l => l.id = lid) (toggleTasksOf tid) lists := by
      simp only [toggle_task, hf1, h2]
    have hf1' : (updateFirst (fun l => l.id = lid) (toggleTasksOf tid) lists).find?
        (fun l => l.id = lid) = some (toggleTasksOf tid lst) := by
      rw [find?_updateFirst (fun l : TodoList => l.id = lid) (toggleTasksOf tid) lists
        (fun x => rfl), hf1]
      rfl
    have hf2' : (toggleTasksOf tid lst).tasks.find? (fun x => x.id = tid)
        = some (toggleCompleted t) := by
      show (updateFirst (fun x => x.id = tid) toggleCompleted lst.tasks).find?
          (fun x => x.id = tid) = some (toggleCompleted t)
      rw [find?_updateFirst (fun x : Task => x.id = tid) toggleCompleted lst.tasks
        (fun x => rfl), h2]
      rfl
    have ht2 : (toggle_task (updateFirst (fun l => l.id = lid) (toggleTasksOf tid) lists)
          lid tid).lists
        = updateFirst (fun l => l.id = lid) (toggleTasksOf tid)
            (updateFirst (fun l => l.id = lid) (toggleTasksOf tid) lists) := by
      simp only [toggle_task, hf1', hf2']
    rw [ht1, ht2,
      updateFirst_updateFirst (fun l : TodoList => l.id = lid) (toggleTasksOf tid) lists
        (fun x => rfl) (toggleTasksOf_toggleTasksOf tid),
      findTaskIn, hf1]
    show (lst.tasks.find? (fun x => x.id = tid)).map Task.completed = some t.completed
    rw [h2]
    rfl

theorem toggle_task_twice_witness :
    (findTaskIn ((toggle_task ((toggle_task [sampleList] "1".data "t1".data).lists)
        "1".data "t1".data).lists) "1".data "t1".data).map Task.completed
      = some sampleTask.completed :=
  toggle_task_twice [sampleList] "1".data "t1".data sampleTask (by decide)

/-- C10: when `toggle_task` succeeds, the resulting collection is exactly
the original with the first task carrying id `tid`, inside the first list
carrying id `lid`, replaced by the same task with its `completed` flag
negated: id, title, timestamp and position of that task, all other tasks,
the task order, and all other lists are unchanged. -/
theorem toggle_task_frame (lists : List TodoList) (lid tid : List Char)
    (h : (toggle_task lists lid tid).ret = true) :
    ∃ i lst j t, lists[i]? = some lst ∧ lst.id = lid
      ∧ (∀ k, k < i → ∀ y, lists[k]? = some y → y.id ≠ lid)
      ∧ lst.tasks[j]? = some t ∧ t.id = tid
      ∧ (∀ k, k < j → ∀ y, lst.tasks[k]? = some y → y.id ≠ tid)
      ∧ (toggle_task lists lid tid).lists
          = lists.set i
              { lst with tasks := lst.tasks.set j { t with completed := !t.completed } } := by
  cases hf1 : lists.find? (fun l => l.id = lid) with
  | none => simp only [toggle_task, hf1] at h; simp at h
  | some lst₀ =>
    cases hf2 : lst₀.tasks.find? (fun x => x.id = tid) with
    | none => simp only [toggle_task, hf1, hf2] at h; simp at h
    | some t₀ =>
      obtain ⟨i, hgeti, hpl, hminl, hupdl⟩ :=
        updateFirst_of_find? (fun l => l.id = lid) (toggleTasksOf tid) lists lst₀ hf1
      obtain ⟨j, hgetj, hpt, hminj, hupdj⟩ :=
        updateFirst_of_find? (fun x => x.id = tid) toggleCompleted lst₀.tasks t₀ hf2
      refine ⟨i, lst₀, j, t₀, hgeti, by simpa using hpl,
        fun k hk y hy => by simpa using hminl k hk y hy,
        hgetj, by simpa using hpt,
        fun k hk y hy => by simpa using hminj k hk y hy, ?_⟩
      simp only [toggle_task, hf1, hf2]
      rw [hupdl]
      have hset : toggleTasksOf tid lst₀
          = { lst₀ with tasks := lst₀.tasks.set j (toggleCompleted t₀) } := by
        rw [toggleTasksOf, hupdj]
      rw [hset]
      rfl

theorem toggle_task_frame_witness :
    ∃ i lst j t, [sampleList][i]? = some lst ∧ lst.id = "1".data
      ∧ (∀ k, k < i → ∀ y, [sampleList][k]? = some y → y.id ≠ "1".data)
      ∧ lst.tasks[j]? = some t ∧ t.id = "t1".data
      ∧ (∀ k, k < j → ∀ y, lst.tasks[k]? = some y → y.id ≠ "t1".data)
      ∧ (toggle_task [sampleList] "1".data "t1".data).lists
          = [sampleList].set i
              { lst with tasks := lst.tasks.set j { t with completed := !t.completed } } :=
  toggle_task_frame [sampleList] "1".data "t1".data (by decide)

end SimpleTodo
